import Mathlib

/-!
Verification development for the `fs-omero-pyfilesystem` adapter
(`src/fs_omero_pyfs/fs.py`, the mature variant).

The adapter maps filesystem paths onto a backing object store:

* a directory is a namespaced tag object (a "directory marker") whose text
  value is the full normalized path (`TagAnnotationWrapper` in the source;
  modelled as `DirMarker`);
* a file is a backing file object with a name and a parent-path attribute,
  linked to its parent marker (`OriginalFileWrapper`; modelled as `FileEntry`);
* links are explicit edges: marker-to-marker edges for directory nesting and
  file-to-marker edges for file membership (the file is the link "parent").

Stateful source code is embedded by explicit state passing over `OmeroStore`.
Mutating facade operations return `(Except FSError result) × OmeroStore` so
that the store at the moment an exception propagates is visible (Python
exceptions do not roll remote state back).  Read-only operations return
`Except FSError result`.

The remote file service (`rfs` in the source, an external collaborator) is
modelled by byte-list primitives: ranged read, ranged write and truncate.
Bytes are `Nat`, remote timestamps are `Int` milliseconds; the source's
float divisions by 1000 appear as exact `ℚ` divisions.

Path normalization (`FS.validatepath` of the pyfilesystem framework, an
external collaborator) is modelled for the dot-free fragment of the path
language: components `.` and `..` are outside the model (the framework
resolves or rejects them before this code sees them), which the theorems
record through the `CleanPath` hypothesis.
-/

/-- Split a character list on slashes (accumulator holds the current
component reversed). -/
def splitSlashAux : List Char → List Char → List String
  | [], cur => [String.mk cur.reverse]
  | c :: rest, cur =>
    if c = '/' then String.mk cur.reverse :: splitSlashAux rest []
    else splitSlashAux rest (c :: cur)

/-- Path components: split on slashes, discarding empty components. -/
def splitPath (p : String) : List String :=
  (splitSlashAux p.data []).filter (fun c => c ≠ "")

/-- Membership test for a character in a string (`'t' in mode`). -/
def strContains (s : String) (c : Char) : Bool :=
  s.data.contains c

/-- Model of `mode.replace('b', '')`: drop every `b`. -/
def stripB (s : String) : String :=
  String.mk (s.data.filter (fun c => c ≠ 'b'))

/-- Model of `FS.validatepath` on dot-free paths: absolute, no trailing
slash, collapsed separators. -/
def normalizePath (p : String) : String :=
  "/" ++ String.intercalate "/" (splitPath p)

/-- Model of `OmeroFS._split_basename`: normalize, then split on the last
separator; the dirname is normalized again (so the dirname of `/a` is `/`). -/
def splitBasename (p : String) : String × String :=
  match (splitPath p).reverse with
  | [] => ("/", "")
  | b :: rest => ("/" ++ String.intercalate "/" rest.reverse, b)

/-- Paths without `.` or `..` components: the fragment of the path language
on which `normalizePath` agrees with the framework's `validatepath`. -/
def CleanPath (p : String) : Prop :=
  ∀ c ∈ splitPath p, c ≠ "." ∧ c ≠ ".."

instance (p : String) : Decidable (CleanPath p) := by
  unfold CleanPath; infer_instance

/-- Resource kinds reported by `getinfo` (`fs.enums.ResourceType`). -/
inductive RType where
  | directory
  | file
deriving DecidableEq

/-- Directory marker: a namespaced tag object whose text value is the full
path (`TagAnnotationWrapper` with `ns` and `textValue`).  `creationTime` is
the backing store's creation-event time in milliseconds. -/
structure DirMarker where
  id : Nat
  ns : String
  textValue : String
  creationTime : Int
deriving DecidableEq

/-- File entry: a backing file object (`OriginalFileWrapper`).  `path` is the
parent directory's path string, `content` the byte content (its length is the
stored size), `ctime`/`mtime` the stored timestamps in milliseconds (`ctime`
may be unset), `creationTime` the creation-event time in milliseconds. -/
structure FileEntry where
  id : Nat
  name : String
  path : String
  content : List Nat
  ctime : Option Int
  mtime : Int
  creationTime : Int
deriving DecidableEq

/-- The backing store reachable through one connection: marker objects, file
objects, marker-to-marker links (parent marker, child marker) and
file-to-marker links (file, marker — the file is the link "parent").
`nextId` feeds object creation; `saves` counts file-object save calls sent to
the remote service (used to observe `f.save()`). -/
structure OmeroStore where
  dirs : List DirMarker
  files : List FileEntry
  dirLinks : List (Nat × Nat)
  fileLinks : List (Nat × Nat)
  nextId : Nat
  saves : Nat
deriving DecidableEq

/-- Configuration of one `OmeroFS` facade instance: its namespace and its
configured root path. -/
structure OmeroFS where
  ns : String
  root : String
deriving DecidableEq

/-- Errors raised by the adapter (`fs.errors` classes plus Python built-ins). -/
inductive FSError where
  | resourceNotFound (path : String)
  | fileExpected (path : String)
  | directoryExpected (path : String)
  | resourceError (path : String) (msg : String)
  | directoryExists (path : String)
  | fileExists (path : String)
  | directoryNotEmpty (path : String)
  | removeRootError (path : String)
  | permissionError (msg : String)
  | valueError (msg : String)
  | unsupported (path : String)
deriving DecidableEq

/-- Discriminator for the `Unsupported` error kind. -/
def FSError.isUnsupported : FSError → Bool
  | .unsupported _ => true
  | _ => false

/-- Resource info returned by `getinfo` (the `Info` dictionary: basic name,
directory flag, details timestamps in epoch seconds, size, type). -/
structure InfoData where
  name : String
  is_dir : Bool
  created : ℚ
  modified : Option ℚ
  size : Nat
  rtype : RType
deriving DecidableEq

/-- Argument of `setinfo`: the recognized `details` timestamps (epoch
seconds) plus all remaining info entries, which `setinfo` never reads. -/
structure SetInfoArg where
  modified : Option Int
  created : Option Int
  others : List (String × String)
deriving DecidableEq

/-- Python truthiness of an optional timestamp: `None` and `0` are falsy. -/
def pyTruthy (o : Option Int) : Option Int :=
  match o with
  | some v => if v = 0 then none else some v
  | none => none

/-- Fetch a file object by id (`conn.getObject('OriginalFile', id)`);
`none` models a dangling id. -/
def lookupFile (s : OmeroStore) (i : Nat) : Option FileEntry :=
  s.files.find? (fun f => f.id == i)

/-- Fetch a marker object by id. -/
def lookupDir (s : OmeroStore) (i : Nat) : Option DirMarker :=
  s.dirs.find? (fun d => d.id == i)

/-- Markers matching `conn.getObjects('TagAnnotation', {'ns': ns,
'textValue': vpath})`: exact text-value equality, scoped by namespace. -/
def dirMatches (s : OmeroStore) (ns vpath : String) : List DirMarker :=
  s.dirs.filter (fun d => d.ns == ns && d.textValue == vpath)

/-- Rows of the `_get_file` projection: one file id per
`OriginalFileAnnotationLink` row whose file is named `basename` and whose
marker has text value `dirname` in namespace `ns`. -/
def fileMatchIds (s : OmeroStore) (ns dirname basename : String) : List Nat :=
  s.fileLinks.filterMap (fun l =>
    match lookupFile s l.1, lookupDir s l.2 with
    | some f, some m =>
      if f.name == basename && m.textValue == dirname && m.ns == ns then
        some f.id
      else none
    | _, _ => none)

/-- Model of `OmeroFS._get_dir(path, throw=False)`: zero matches give
`none`, one match gives the marker, several matches raise the structural
ambiguity resource error. -/
def getDirRaw (s : OmeroStore) (ns path : String) :
    Except FSError (Option DirMarker) :=
  match dirMatches s ns (normalizePath path) with
  | [] => .ok none
  | [d] => .ok (some d)
  | _ => .error (.resourceError path "Multiple directories found with same path")

/-- Model of `OmeroFS._get_file(path, throw=False)`: with errors disabled the
empty-basename short circuit is skipped and the query is issued with an empty
file name; a unique row is resolved with `getObject` (possibly dangling). -/
def getFileRaw (s : OmeroStore) (ns path : String) :
    Except FSError (Option FileEntry) :=
  let pr := splitBasename path
  match fileMatchIds s ns pr.1 pr.2 with
  | [] => .ok none
  | [i] => .ok (lookupFile s i)
  | _ => .error (.resourceError path "Multiple files found with same path")

/-- Model of `OmeroFS._get_dir(path)` with `throw=True, checkother=True` (the
defaults at every throwing call site): a missing marker raises
directory-expected when a file occupies the path, not-found otherwise. -/
def getDirT (s : OmeroStore) (ns path : String) : Except FSError DirMarker :=
  match dirMatches s ns (normalizePath path) with
  | [] =>
    match getFileRaw s ns path with
    | .error e => .error e
    | .ok (some _) => .error (.directoryExpected path)
    | .ok none => .error (.resourceNotFound path)
  | [d] => .ok d
  | _ => .error (.resourceError path "Multiple directories found with same path")

/-- Model of `OmeroFS._get_file(path)` with `throw=True, checkother=True`
(the defaults at every throwing call site): an empty basename raises
file-expected before the query is issued; a missing row raises file-expected
when a marker occupies the path, not-found otherwise.  A dangling unique row
yields `ok none` (`getObject` returning `None`). -/
def getFileT (s : OmeroStore) (ns path : String) :
    Except FSError (Option FileEntry) :=
  let pr := splitBasename path
  if pr.2 = "" then .error (.fileExpected path)
  else
    match fileMatchIds s ns pr.1 pr.2 with
    | [] =>
      match getDirRaw s ns path with
      | .error e => .error e
      | .ok (some _) => .error (.fileExpected path)
      | .ok none => .error (.resourceNotFound path)
    | [i] => .ok (lookupFile s i)
    | _ => .error (.resourceError path "Multiple files found with same path")

/-- Default chunk size of the remote-gateway file object (`bufsize` of
`_OriginalFileAsFileObj`). -/
def DEFAULT_BUFSIZE : Nat := 2621440

/-- Open handle state (`OriginalFileObj`): the wrapped file object's id, the
local byte offset `pos`, the chunk size, and the capability flags fixed at
construction. -/
structure OriginalFileObj where
  fileId : Nat
  pos : Nat
  bufsize : Nat
  readable : Bool
  writable : Bool
deriving DecidableEq

/-- Remote ranged read (`rfs.read` driven from `pos`): bytes from `pos` to
end of file when `n` is negative, at most `n` bytes otherwise. -/
def readAllAt (content : List Nat) (pos : Nat) (n : Int) : List Nat :=
  if n < 0 then content.drop pos else (content.drop pos).take n.toNat

/-- Remote ranged write (`rfs.write(buf, pos, len(buf))`): splice `buf` into
the content at offset `pos` (zero-filled if `pos` is past the end). -/
def writeAt (content : List Nat) (pos : Nat) (buf : List Nat) : List Nat :=
  content.take pos ++ List.replicate (pos - content.length) 0 ++ buf ++
    content.drop (pos + buf.length)

/-- Replace the byte content of the file object `fid` on the remote store
(the effect of `rfs.write` / `rfs.truncate`; the stored size follows). -/
def updateContent (s : OmeroStore) (fid : Nat) (c : List Nat) : OmeroStore :=
  { s with files := s.files.map (fun f =>
      if f.id == fid then { f with content := c } else f) }

/-- Save a file object back to the store (`f.save()`): replace the entry with
the given id and count one remote save call. -/
def saveFile (s : OmeroStore) (f : FileEntry) : OmeroStore :=
  { s with
    files := s.files.map (fun g => if g.id == f.id then f else g),
    saves := s.saves + 1 }

/-- Model of `OmeroFS._create_tag`: persist a fresh marker whose text value
is the (already validated) path and, when a parent is given, link parent to
child.  Creation-event time is server-assigned; the model uses 0. -/
def createTag (s : OmeroStore) (ns vpath : String) (parent : Option DirMarker) :
    DirMarker × OmeroStore :=
  let d : DirMarker :=
    { id := s.nextId, ns := ns, textValue := vpath, creationTime := 0 }
  (d, { s with
        dirs := s.dirs ++ [d],
        dirLinks := s.dirLinks ++
          (match parent with | some p => [(p.id, d.id)] | none => []),
        nextId := s.nextId + 1 })

/-- File creation inside `openbin` (absent entry, write-family mode): a fresh
file object with the basename as name and the dirname as path attribute,
saved empty and linked to the parent marker.  Server-assigned timestamps are
modelled as 0 / unset. -/
def createFileEntry (s : OmeroStore) (name path : String) (parentId : Nat) :
    FileEntry × OmeroStore :=
  let f : FileEntry :=
    { id := s.nextId, name := name, path := path, content := [],
      ctime := none, mtime := 0, creationTime := 0 }
  (f, { s with
        files := s.files ++ [f],
        fileLinks := s.fileLinks ++ [(f.id, parentId)],
        nextId := s.nextId + 1 })

/-- Effect of `conn.deleteObject` on a marker: the marker and the links that
touch it disappear.  (The backing store's documented cascade hazard — the
parent marker may also vanish when left childless — is a remote-service
quirk outside this model.) -/
def deleteDirObj (s : OmeroStore) (did : Nat) : OmeroStore :=
  { s with
    dirs := s.dirs.filter (fun d => d.id != did),
    dirLinks := s.dirLinks.filter (fun l => l.1 != did && l.2 != did),
    fileLinks := s.fileLinks.filter (fun l => l.2 != did) }

/-- Effect of `conn.deleteObject` on a file object: the file and its links
disappear. -/
def deleteFileObj (s : OmeroStore) (fid : Nat) : OmeroStore :=
  { s with
    files := s.files.filter (fun f => f.id != fid),
    fileLinks := s.fileLinks.filter (fun l => l.1 != fid) }

/-- Model of `OriginalFileObj.read`: forbidden on a write-only handle,
otherwise a ranged read at `pos` advancing `pos` by the bytes returned. -/
def OriginalFileObj.read (self : OriginalFileObj) (s : OmeroStore) (n : Int) :
    Except FSError (List Nat × OriginalFileObj) :=
  if ¬ self.readable then .error (.permissionError "File opened write-only")
  else
    match lookupFile s self.fileId with
    | none => .error (.resourceError "" "backing file object missing")
    | some f =>
      let r := readAllAt f.content self.pos n
      .ok (r, { self with pos := self.pos + r.length })

/-- Model of `OriginalFileObj.write`: forbidden on a read-only handle,
otherwise a ranged write at `pos` advancing `pos` by `len(buf)` and
returning `len(buf)`. -/
def OriginalFileObj.write (self : OriginalFileObj) (s : OmeroStore)
    (buf : List Nat) : Except FSError (Nat × OmeroStore × OriginalFileObj) :=
  if ¬ self.writable then .error (.permissionError "File opened read-only")
  else
    match lookupFile s self.fileId with
    | none => .error (.resourceError "" "backing file object missing")
    | some f =>
      .ok (buf.length,
           updateContent s self.fileId (writeAt f.content self.pos buf),
           { self with pos := self.pos + buf.length })

/-- Model of `seek(n, mode)`: pure offset arithmetic; mode 0 is absolute,
1 current-relative, 2 end-relative against the remote size.  Offsets are
modelled as naturals (negative results, unused by this code, clamp to 0). -/
def OriginalFileObj.seek (self : OriginalFileObj) (s : OmeroStore) (n : Int)
    (mode : Nat) : OriginalFileObj :=
  let size : Nat := match lookupFile s self.fileId with
    | some f => f.content.length
    | none => 0
  match mode with
  | 0 => { self with pos := n.toNat }
  | 1 => { self with pos := ((self.pos : Int) + n).toNat }
  | 2 => { self with pos := ((size : Int) + n).toNat }
  | _ => self

/-- Model of `OriginalFileObj.truncate(size)`: forbidden on a read-only
handle; `size=None` means the current offset; growing is emulated by writing
zero padding at the current end and restoring the prior offset, shrinking
delegates to the remote truncate primitive. -/
def OriginalFileObj.truncate (self : OriginalFileObj) (s : OmeroStore)
    (size? : Option Nat) : Except FSError (Nat × OmeroStore × OriginalFileObj) :=
  if ¬ self.writable then .error (.permissionError "File opened read-only")
  else
    match lookupFile s self.fileId with
    | none => .error (.resourceError "" "backing file object missing")
    | some f =>
      let size := size?.getD self.pos
      let currentsize := f.content.length
      let currentpos := self.pos
      if currentsize < size then
        match OriginalFileObj.write { self with pos := currentsize } s
            (List.replicate (size - currentsize) 0) with
        | .error e => .error e
        | .ok (_, s1, h1) => .ok (size, s1, { h1 with pos := currentpos })
      else
        .ok (size, updateContent s self.fileId (f.content.take size), self)

/-- Index of the first newline byte in a chunk (`buf.find(b'\n')`; `none`
models the return value -1). -/
def findIdx10 : List Nat → Option Nat
  | [] => none
  | b :: t => if b = 10 then some 0 else (findIdx10 t).map (fun i => i + 1)

/-- Loop of `OriginalFileObj.readline`: while the offset is before
end-of-file and the size bound (negative means unbounded) is not reached,
read one chunk through `self.read` (which enforces readability); append the
chunk up to and including the first newline, rewinding the offset past the
newline, or the whole chunk when it has none.  The fuel only bounds the
recursion; it is never exhausted when the chunk size is positive. -/
def readlineAux (content : List Nat) (bufsize : Nat) (canRead : Bool) :
    Nat → Nat → Int → List Nat → Except FSError (List Nat × Nat)
  | 0, pos, _, line => .ok (line, pos)
  | fuel + 1, pos, size, line =>
    if pos < content.length ∧ (size < 0 ∨ (line.length : Int) < size) then
      if ¬ canRead then .error (.permissionError "File opened write-only")
      else
        let buf := (content.drop pos).take bufsize
        match findIdx10 buf with
        | none => readlineAux content bufsize canRead fuel (pos + buf.length)
            size (line ++ buf)
        | some eol =>
          .ok (line ++ buf.take (eol + 1),
               (pos + buf.length) - (buf.length - eol - 1))
    else .ok (line, pos)

/-- Model of `OriginalFileObj.readline(size)`. -/
def OriginalFileObj.readline (self : OriginalFileObj) (s : OmeroStore)
    (size : Int) : Except FSError (List Nat × OriginalFileObj) :=
  match lookupFile s self.fileId with
  | none => .error (.resourceError "" "backing file object missing")
  | some f =>
    match readlineAux f.content self.bufsize self.readable
        (f.content.length + 1) self.pos size [] with
    | .error e => .error e
    | .ok (line, pos1) => .ok (line, { self with pos := pos1 })

/-- Model of `OmeroFS.getinfo`: resolve both the marker and the file at the
path without cross-checking (`throw=False, checkother=False`), raise the
collision resource error when both exist, not-found when neither does, and
otherwise report the one that exists.  Timestamps are epoch seconds (the
thousandfold scale removed); a file's creation time prefers the stored
`ctime` (Python truthiness) over the creation event. -/
def OmeroFS.getinfo (fs : OmeroFS) (s : OmeroStore) (path : String) :
    Except FSError InfoData :=
  let pr := splitBasename path
  match getDirRaw s fs.ns path with
  | .error e => .error e
  | .ok dOpt =>
    match getFileRaw s fs.ns path with
    | .error e => .error e
    | .ok fOpt =>
      match dOpt, fOpt with
      | some _, some _ =>
        .error (.resourceError path "Directory and file found with same path")
      | none, none => .error (.resourceNotFound path)
      | some d, none =>
        .ok { name := pr.2, is_dir := true,
              created := (d.creationTime : ℚ) / 1000,
              modified := none, size := 0, rtype := .directory }
      | none, some f =>
        .ok { name := pr.2, is_dir := false,
              created := (((pyTruthy f.ctime).getD f.creationTime : Int) : ℚ) / 1000,
              modified := some ((f.mtime : ℚ) / 1000),
              size := f.content.length, rtype := .file }

/-- Model of `OmeroFS.listdir`: resolve the marker (throwing), then list the
leaf names of namespace-scoped child markers plus the names of linked files
(the file is the parent of its link). -/
def OmeroFS.listdir (fs : OmeroFS) (s : OmeroStore) (path : String) :
    Except FSError (List String) :=
  match getDirT s fs.ns path with
  | .error e => .error e
  | .ok parent =>
    let rdirs := s.dirLinks.filterMap (fun l =>
      if l.1 == parent.id then
        match lookupDir s l.2 with
        | some c => if c.ns == fs.ns then some c.textValue else none
        | none => none
      else none)
    let fnames := s.fileLinks.filterMap (fun l =>
      if l.2 == parent.id then (lookupFile s l.1).map (fun f => f.name)
      else none)
    .ok (rdirs.map (fun tv => (splitBasename tv).2) ++ fnames)

/-- Model of `OmeroFS.makedir`: an existing marker raises already-exists
unless `recreate`; otherwise the parent marker is resolved (throwing) and a
new marker for the normalized path is created and linked to it.  The
returned `SubFS` sub-view is modelled by its root path. -/
def OmeroFS.makedir (fs : OmeroFS) (s : OmeroStore) (path : String)
    (recreate : Bool) : (Except FSError String) × OmeroStore :=
  let vpath := normalizePath path
  let pr := splitBasename path
  match getDirRaw s fs.ns path with
  | .error e => (.error e, s)
  | .ok (some _) =>
    if ¬ recreate then (.error (.directoryExists path), s) else (.ok vpath, s)
  | .ok none =>
    match getDirT s fs.ns pr.1 with
    | .error e => (.error e, s)
    | .ok parent => (.ok vpath, (createTag s fs.ns vpath (some parent)).2)

/-- Model of `OmeroFS.openbin`: text mode rejected, `b` stripped; the parent
marker must exist.  Read mode resolves the file (throwing).  Write-family
modes (`a`/`w`/`x`) resolve without throwing, reject `x` on an existing
entry, create an absent entry (unless a marker occupies the path) linked to
the parent, truncate to zero for `w`, and seek to end-of-file. -/
def OmeroFS.openbin (fs : OmeroFS) (s : OmeroStore) (path mode : String) :
    (Except FSError OriginalFileObj) × OmeroStore :=
  if strContains mode 't' then (.error (.valueError "Text mode not supported"), s)
  else
    let m := stripB mode
    let pr := splitBasename path
    match getDirRaw s fs.ns pr.1 with
    | .error e => (.error e, s)
    | .ok none => (.error (.resourceNotFound path), s)
    | .ok (some parent) =>
      if strContains m 'r' then
        match getFileT s fs.ns path with
        | .error e => (.error e, s)
        | .ok none => (.error (.resourceError path "backing file object missing"), s)
        | .ok (some f) =>
          (.ok { fileId := f.id, pos := 0, bufsize := DEFAULT_BUFSIZE,
                 readable := true, writable := strContains m '+' }, s)
      else if strContains m 'a' || strContains m 'w' || strContains m 'x' then
        match getFileRaw s fs.ns path with
        | .error e => (.error e, s)
        | .ok fOpt =>
          if fOpt.isSome && strContains m 'x' then
            (.error (.fileExists path), s)
          else
            let mk : Except FSError (FileEntry × OmeroStore) :=
              match fOpt with
              | some f => .ok (f, s)
              | none =>
                match getDirRaw s fs.ns path with
                | .error e => .error e
                | .ok (some _) => .error (.fileExpected path)
                | .ok none => .ok (createFileEntry s pr.2 pr.1 parent.id)
            match mk with
            | .error e => (.error e, s)
            | .ok (f, s1) =>
              let h : OriginalFileObj :=
                { fileId := f.id, pos := 0, bufsize := DEFAULT_BUFSIZE,
                  readable := strContains m '+', writable := true }
              match
                (if strContains m 'w' then
                  match OriginalFileObj.truncate h s1 (some 0) with
                  | .error e => Except.error e
                  | .ok (_, s2, h2) => Except.ok (s2, h2)
                else Except.ok (s1, h) :
                  Except FSError (OmeroStore × OriginalFileObj)) with
              | .error e => (.error e, s1)
              | .ok (s2, h2) => (.ok (OriginalFileObj.seek h2 s2 0 2), s2)
      else (.error (.valueError "openbin mode not supported"), s)

/-- Model of `OmeroFS.remove`: resolve the file (throwing) and delete the
backing object.  A resolvable id is required (`f._obj`). -/
def OmeroFS.remove (fs : OmeroFS) (s : OmeroStore) (path : String) :
    (Except FSError Unit) × OmeroStore :=
  match getFileT s fs.ns path with
  | .error e => (.error e, s)
  | .ok none => (.error (.resourceError path "backing file object missing"), s)
  | .ok (some f) => (.ok (), deleteFileObj s f.id)

/-- Model of `OmeroFS.removedir`: refuse the configured root, resolve the
marker (throwing), list children and refuse when any exist, otherwise delete
the marker object. -/
def OmeroFS.removedir (fs : OmeroFS) (s : OmeroStore) (path : String) :
    (Except FSError Unit) × OmeroStore :=
  let vpath := normalizePath path
  if vpath = fs.root then (.error (.removeRootError fs.root), s)
  else
    match getDirT s fs.ns path with
    | .error e => (.error e, s)
    | .ok d =>
      match OmeroFS.listdir fs s path with
      | .error e => (.error e, s)
      | .ok children =>
        if children ≠ [] then (.error (.directoryNotEmpty path), s)
        else (.ok (), deleteDirObj s d.id)

/-- Model of `OmeroFS.setinfo`: read the `details` timestamps, resolve the
file (throwing), store each truthy timestamp scaled by 1000 as the remote
time value, and save the file object back unconditionally. -/
def OmeroFS.setinfo (fs : OmeroFS) (s : OmeroStore) (path : String)
    (info : SetInfoArg) : (Except FSError Unit) × OmeroStore :=
  let mtime := info.modified
  let ctime := info.created
  match getFileT s fs.ns path with
  | .error e => (.error e, s)
  | .ok none => (.error (.resourceError path "backing file object missing"), s)
  | .ok (some f) =>
    let f1 := match pyTruthy mtime with
      | some m => { f with mtime := m * 1000 }
      | none => f
    let f2 := match pyTruthy ctime with
      | some c => { f1 with ctime := some (c * 1000) }
      | none => f1
    (.ok (), saveFile s f2)

/-- Round trip of claim C1: open for write, write `b`, close the handle
(`close` releases the remote file handle and does not change store state),
reopen for read and read to end-of-file. -/
def writeReadRoundtrip (fs : OmeroFS) (s : OmeroStore) (p : String)
    (b : List Nat) : Except FSError (List Nat) :=
  match OmeroFS.openbin fs s p "wb" with
  | (.error e, _) => .error e
  | (.ok h, s1) =>
    match OriginalFileObj.write h s1 b with
    | .error e => .error e
    | .ok (_, s2, _) =>
      match OmeroFS.openbin fs s2 p "rb" with
      | (.error e, _) => .error e
      | (.ok h3, s3) =>
        match OriginalFileObj.read h3 s3 (-1) with
        | .error e => .error e
        | .ok (r, _) => .ok r

/-- Decidable equality of results, for concrete evaluation of the model. -/
instance {ε α : Type} [DecidableEq ε] [DecidableEq α] :
    DecidableEq (Except ε α) := fun x y =>
  match x, y with
  | .ok a, .ok b =>
    if h : a = b then .isTrue (by rw [h]) else .isFalse (by simp [h])
  | .error a, .error b =>
    if h : a = b then .isTrue (by rw [h]) else .isFalse (by simp [h])
  | .ok _, .error _ => .isFalse (by simp)
  | .error _, .ok _ => .isFalse (by simp)

/-- Facade fixture: namespace `ns`, root `/`. -/
def fsA : OmeroFS := { ns := "ns", root := "/" }

/-- Root marker fixture. -/
def rootM : DirMarker :=
  { id := 0, ns := "ns", textValue := "/", creationTime := 2000 }

/-- Marker fixture for `/d`. -/
def dM : DirMarker :=
  { id := 1, ns := "ns", textValue := "/d", creationTime := 4000 }

/-- File fixture: `f` in the root directory, content `hi`. -/
def fE : FileEntry :=
  { id := 2, name := "f", path := "/", content := [104, 105],
    ctime := none, mtime := 5000, creationTime := 1000 }

/-- Store fixture: root marker, empty directory `/d`, file `/f`. -/
def sB : OmeroStore :=
  { dirs := [rootM, dM], files := [fE], dirLinks := [(0, 1)],
    fileLinks := [(2, 0)], nextId := 3, saves := 0 }

/-- Store fixture with consistency violations: a duplicated `/d` marker and
two distinct file entries named `f` linked under the root marker. -/
def sDup : OmeroStore :=
  { dirs := [rootM, dM, { dM with id := 3 }],
    files := [fE, { fE with id := 4 }],
    dirLinks := [(0, 1), (0, 3)], fileLinks := [(2, 0), (4, 0)],
    nextId := 5, saves := 0 }

/-- C6: when more than one marker matches a namespace-scoped path, or more
than one projection row matches a file path, resolution raises the
structural-ambiguity resource error — in the raw (non-throwing) variants
and in the throwing variants alike (for the file side when the leaf name is
nonempty, since an empty leaf is short-circuited earlier, see C9) — and
never returns an arbitrarily chosen match. -/
theorem ambiguous_matches_raise (s : OmeroStore) (ns p : String)
    (hclean : CleanPath p) :
    (2 ≤ (dirMatches s ns (normalizePath p)).length →
      getDirRaw s ns p =
        .error (.resourceError p "Multiple directories found with same path") ∧
      getDirT s ns p =
        .error (.resourceError p "Multiple directories found with same path")) ∧
    (2 ≤ (fileMatchIds s ns (splitBasename p).1 (splitBasename p).2).length →
      getFileRaw s ns p =
        .error (.resourceError p "Multiple files found with same path") ∧
      ((splitBasename p).2 ≠ "" →
        getFileT s ns p =
          .error (.resourceError p "Multiple files found with same path"))) := by
  constructor
  · intro hlen
    obtain ⟨a, b, t, hl⟩ :
        ∃ a b t, dirMatches s ns (normalizePath p) = a :: b :: t := by
      match hll : dirMatches s ns (normalizePath p) with
      | [] => rw [hll] at hlen; simp at hlen
      | [d] => rw [hll] at hlen; simp at hlen
      | a :: b :: t => exact ⟨a, b, t, rfl⟩
    exact ⟨by simp [getDirRaw, hl], by simp [getDirT, hl]⟩
  · intro hlen
    obtain ⟨a, b, t, hl⟩ :
        ∃ a b t,
          fileMatchIds s ns (splitBasename p).1 (splitBasename p).2
            = a :: b :: t := by
      match hll : fileMatchIds s ns (splitBasename p).1 (splitBasename p).2 with
      | [] => rw [hll] at hlen; simp at hlen
      | [d] => rw [hll] at hlen; simp at hlen
      | a :: b :: t => exact ⟨a, b, t, rfl⟩
    refine ⟨by simp [getFileRaw, hl], fun hb => ?_⟩
    simp [getFileT, hb, hl]

/-- Witness for C6 on the corrupted fixture store: the duplicated `/d`
marker and the duplicated `/f` link row both surface as resource errors. -/
theorem ambiguous_matches_raise_witness :
    getDirRaw sDup "ns" "/d" =
      .error (.resourceError "/d" "Multiple directories found with same path") ∧
    getFileRaw sDup "ns" "/f" =
      .error (.resourceError "/f" "Multiple files found with same path") :=
  ⟨((ambiguous_matches_raise sDup "ns" "/d" (by decide)).1 (by decide)).1,
   ((ambiguous_matches_raise sDup "ns" "/f" (by decide)).2 (by decide)).1⟩

/-- C5: `getinfo` resolves both kinds at the path; both present is the
collision resource error, neither present is not-found, and otherwise the
info reported is for exactly the kind that exists. -/
theorem getinfo_resolves_both_kinds (fs : OmeroFS) (s : OmeroStore)
    (p : String) (hclean : CleanPath p) :
    (∀ d f, getDirRaw s fs.ns p = .ok (some d) →
      getFileRaw s fs.ns p = .ok (some f) →
      OmeroFS.getinfo fs s p =
        .error (.resourceError p "Directory and file found with same path")) ∧
    (getDirRaw s fs.ns p = .ok none → getFileRaw s fs.ns p = .ok none →
      OmeroFS.getinfo fs s p = .error (.resourceNotFound p)) ∧
    (∀ d, getDirRaw s fs.ns p = .ok (some d) →
      getFileRaw s fs.ns p = .ok none →
      OmeroFS.getinfo fs s p =
        .ok { name := (splitBasename p).2, is_dir := true,
              created := (d.creationTime : ℚ) / 1000, modified := none,
              size := 0, rtype := .directory }) ∧
    (∀ f, getDirRaw s fs.ns p = .ok none →
      getFileRaw s fs.ns p = .ok (some f) →
      OmeroFS.getinfo fs s p =
        .ok { name := (splitBasename p).2, is_dir := false,
              created :=
                (((pyTruthy f.ctime).getD f.creationTime : Int) : ℚ) / 1000,
              modified := some ((f.mtime : ℚ) / 1000),
              size := f.content.length, rtype := .file }) := by
  refine ⟨fun d f hd hf => ?_, fun hd hf => ?_, fun d hd hf => ?_,
    fun f hd hf => ?_⟩ <;> simp [OmeroFS.getinfo, hd, hf]

/-- Witness for C5 on the fixture store: the directory `/d` and the file
`/f` are each reported as exactly their own kind. -/
theorem getinfo_resolves_both_kinds_witness :
    (∃ i, OmeroFS.getinfo fsA sB "/d" = .ok i ∧
      i.is_dir = true ∧ i.rtype = .directory) ∧
    (∃ i, OmeroFS.getinfo fsA sB "/f" = .ok i ∧
      i.is_dir = false ∧ i.rtype = .file) := by
  constructor
  · exact ⟨_, (getinfo_resolves_both_kinds fsA sB "/d" (by decide)).2.2.1 dM
      (by decide) (by decide), rfl, rfl⟩
  · exact ⟨_, (getinfo_resolves_both_kinds fsA sB "/f" (by decide)).2.2.2 fE
      (by decide) (by decide), rfl, rfl⟩

/-- C3 (amended): `removedir` refuses the configured root; with no marker at
the path it raises not-found when nothing exists there and directory-expected
when a file entry occupies it; with a marker and children it raises
not-empty leaving the store unchanged; with a marker and no children it
deletes exactly the marker object. -/
theorem removedir_cases (fs : OmeroFS) (s : OmeroStore) (p : String)
    (hclean : CleanPath p) :
    (normalizePath p = fs.root →
      OmeroFS.removedir fs s p = (.error (.removeRootError fs.root), s)) ∧
    (normalizePath p ≠ fs.root →
      dirMatches s fs.ns (normalizePath p) = [] →
      getFileRaw s fs.ns p = .ok none →
      OmeroFS.removedir fs s p = (.error (.resourceNotFound p), s)) ∧
    (∀ f, normalizePath p ≠ fs.root →
      dirMatches s fs.ns (normalizePath p) = [] →
      getFileRaw s fs.ns p = .ok (some f) →
      OmeroFS.removedir fs s p = (.error (.directoryExpected p), s)) ∧
    (∀ d cs, normalizePath p ≠ fs.root →
      dirMatches s fs.ns (normalizePath p) = [d] →
      OmeroFS.listdir fs s p = .ok cs → cs ≠ [] →
      OmeroFS.removedir fs s p = (.error (.directoryNotEmpty p), s)) ∧
    (∀ d, normalizePath p ≠ fs.root →
      dirMatches s fs.ns (normalizePath p) = [d] →
      OmeroFS.listdir fs s p = .ok [] →
      OmeroFS.removedir fs s p = (.ok (), deleteDirObj s d.id)) := by
  refine ⟨fun hroot => ?_, fun hne hd hf => ?_, fun f hne hd hf => ?_,
    fun d cs hne hd hl hcs => ?_, fun d hne hd hl => ?_⟩
  · simp [OmeroFS.removedir, hroot]
  · simp [OmeroFS.removedir, hne, getDirT, hd, hf]
  · simp [OmeroFS.removedir, hne, getDirT, hd, hf]
  · simp [OmeroFS.removedir, hne, getDirT, hd, hl, hcs]
  · simp [OmeroFS.removedir, hne, getDirT, hd, hl]

/-- Counterexample for C3 as frozen: at `/f` no directory marker exists, yet
`removedir` raises directory-expected, not the claimed not-found (a file
entry occupies the path). -/
theorem removedir_counterexample :
    OmeroFS.removedir fsA sB "/f" = (.error (.directoryExpected "/f"), sB) ∧
    FSError.directoryExpected "/f" ≠ FSError.resourceNotFound "/f" :=
  ⟨by decide, by decide⟩

/-- Witness for C3 on the fixture store: the root is protected and the empty
directory `/d` is deleted. -/
theorem removedir_cases_witness :
    OmeroFS.removedir fsA sB "/" = (.error (.removeRootError "/"), sB) ∧
    OmeroFS.removedir fsA sB "/d" = (.ok (), deleteDirObj sB 1) :=
  ⟨(removedir_cases fsA sB "/" (by decide)).1 (by decide),
   (removedir_cases fsA sB "/d" (by decide)).2.2.2.2 dM (by decide)
     (by decide) (by decide)⟩

/-- C4 (amended): `makedir` on an existing marker raises already-exists
unless `recreate`, in which case it is a state-preserving no-op returning
the sub-view path; on an absent marker it resolves the parent marker —
raising not-found when nothing exists at the parent path and
directory-expected when a file entry occupies it, never creating missing
ancestors — and creates exactly one new marker whose text value is the
normalized path, linked to the parent. -/
theorem makedir_cases (fs : OmeroFS) (s : OmeroStore) (p : String)
    (hclean : CleanPath p) :
    (∀ d, dirMatches s fs.ns (normalizePath p) = [d] →
      OmeroFS.makedir fs s p false = (.error (.directoryExists p), s)) ∧
    (∀ d, dirMatches s fs.ns (normalizePath p) = [d] →
      OmeroFS.makedir fs s p true = (.ok (normalizePath p), s)) ∧
    (∀ pm recreate, dirMatches s fs.ns (normalizePath p) = [] →
      dirMatches s fs.ns (normalizePath (splitBasename p).1) = [pm] →
      OmeroFS.makedir fs s p recreate =
        (.ok (normalizePath p),
         { s with
           dirs := s.dirs ++
             [{ id := s.nextId,
                ns := fs.ns,
                textValue := normalizePath p,
                creationTime := 0 }],
           dirLinks := s.dirLinks ++ [(pm.id, s.nextId)],
           nextId := s.nextId + 1 })) ∧
    (∀ recreate, dirMatches s fs.ns (normalizePath p) = [] →
      dirMatches s fs.ns (normalizePath (splitBasename p).1) = [] →
      getFileRaw s fs.ns (splitBasename p).1 = .ok none →
      OmeroFS.makedir fs s p recreate =
        (.error (.resourceNotFound (splitBasename p).1), s)) ∧
    (∀ f recreate, dirMatches s fs.ns (normalizePath p) = [] →
      dirMatches s fs.ns (normalizePath (splitBasename p).1) = [] →
      getFileRaw s fs.ns (splitBasename p).1 = .ok (some f) →
      OmeroFS.makedir fs s p recreate =
        (.error (.directoryExpected (splitBasename p).1), s)) := by
  refine ⟨fun d hd => ?_, fun d hd => ?_, fun pm recreate hd hp => ?_,
    fun recreate hd hp hf => ?_, fun f recreate hd hp hf => ?_⟩
  · simp [OmeroFS.makedir, getDirRaw, hd]
  · simp [OmeroFS.makedir, getDirRaw, hd]
  · simp [OmeroFS.makedir, getDirRaw, getDirT, createTag, hd, hp]
  · simp [OmeroFS.makedir, getDirRaw, getDirT, hd, hp, hf]
  · simp [OmeroFS.makedir, getDirRaw, getDirT, hd, hp, hf]

/-- Counterexample for C4 as frozen: creating `/f/y` under the parent path
`/f`, which is occupied by a file entry and has no marker, raises
directory-expected, not the claimed not-found. -/
theorem makedir_counterexample :
    OmeroFS.makedir fsA sB "/f/y" false =
      (.error (.directoryExpected "/f"), sB) ∧
    FSError.directoryExpected "/f" ≠ FSError.resourceNotFound "/f" :=
  ⟨by decide, by decide⟩

/-- Witness for C4 on the fixture store: already-exists on `/d`, and
creation of `/d/e` adds exactly one marker linked to `/d`. -/
theorem makedir_cases_witness :
    OmeroFS.makedir fsA sB "/d" false = (.error (.directoryExists "/d"), sB) ∧
    OmeroFS.makedir fsA sB "/d/e" false =
      (.ok "/d/e",
       { sB with
         dirs := sB.dirs ++
           [{ id := 3, ns := "ns", textValue := "/d/e", creationTime := 0 }],
         dirLinks := sB.dirLinks ++ [(1, 3)],
         nextId := 4 }) :=
  ⟨(makedir_cases fsA sB "/d" (by decide)).1 dM (by decide),
   (makedir_cases fsA sB "/d/e" (by decide)).2.2.1 dM false (by decide)
     (by decide)⟩

/-- Replacing the entry with a given id by an equal value is the identity on
the file table (used to observe that a save without changes stores nothing
new). -/
theorem map_replace_self (files : List FileEntry) (f : FileEntry)
    (h : ∀ g ∈ files, g.id = f.id → g = f) :
    files.map (fun g => if g.id == f.id then f else g) = files := by
  induction files with
  | nil => rfl
  | cons a t ih =>
    simp only [List.map_cons]
    have ht : ∀ g ∈ t, g.id = f.id → g = f := fun g hg => h g (by simp [hg])
    rw [ih ht]
    by_cases ha : a.id = f.id
    · have haf := h a (by simp) ha
      simp [haf]
    · simp [ha]

/-- C7 (amended): `setinfo` stores truthy created/modified epoch-second
timestamps on a file entry scaled by one thousand, modifying nothing else;
on a directory path it raises a file-expected error (not "unsupported");
info categories other than these timestamps are never read, so they are
silently ignored. -/
theorem setinfo_timestamps (fs : OmeroFS) (s : OmeroStore) (p : String)
    (hclean : CleanPath p) :
    (∀ f m c o, getFileT s fs.ns p = .ok (some f) → m ≠ 0 → c ≠ 0 →
      OmeroFS.setinfo fs s p ⟨some m, some c, o⟩ =
        (.ok (),
         saveFile s { f with mtime := m * 1000, ctime := some (c * 1000) })) ∧
    (∀ d info, dirMatches s fs.ns (normalizePath p) = [d] →
      fileMatchIds s fs.ns (splitBasename p).1 (splitBasename p).2 = [] →
      OmeroFS.setinfo fs s p info = (.error (.fileExpected p), s) ∧
      FSError.isUnsupported (.fileExpected p) = false) ∧
    (∀ m c o1 o2,
      OmeroFS.setinfo fs s p ⟨m, c, o1⟩ = OmeroFS.setinfo fs s p ⟨m, c, o2⟩) := by
  refine ⟨fun f m c o hf hm hc => ?_, fun d info hd hids => ?_,
    fun m c o1 o2 => rfl⟩
  · simp [OmeroFS.setinfo, hf, pyTruthy, hm, hc]
  · by_cases hb : (splitBasename p).2 = ""
    · simp [OmeroFS.setinfo, getFileT, hb, FSError.isUnsupported]
    · simp [OmeroFS.setinfo, getFileT, hb, hids, getDirRaw, hd,
        FSError.isUnsupported]

/-- Counterexample for C7 as frozen: on the directory `/d`, `setinfo` raises
file-expected, not the claimed "unsupported" error; and an info argument
carrying only an unrecognized category silently succeeds instead of raising
"unsupported". -/
theorem setinfo_counterexample :
    OmeroFS.setinfo fsA sB "/d" ⟨none, none, []⟩ =
      (.error (.fileExpected "/d"), sB) ∧
    FSError.isUnsupported (FSError.fileExpected "/d") = false ∧
    (OmeroFS.setinfo fsA sB "/f" ⟨none, none, [("permissions", "u=rw")]⟩).1 =
      .ok () :=
  ⟨by decide, by decide, by decide⟩

/-- Witness for C7 on the fixture store: timestamps 7/9 are stored as
7000/9000 on `/f`, and `/d` yields file-expected. -/
theorem setinfo_timestamps_witness :
    OmeroFS.setinfo fsA sB "/f" ⟨some 7, some 9, [("foo", "bar")]⟩ =
      (.ok (), saveFile sB { fE with mtime := 7000, ctime := some 9000 }) ∧
    OmeroFS.setinfo fsA sB "/d" ⟨none, none, []⟩ =
      (.error (.fileExpected "/d"), sB) :=
  ⟨(setinfo_timestamps fsA sB "/f" (by decide)).1 fE 7 9 [("foo", "bar")]
      (by decide) (by decide) (by decide),
   ((setinfo_timestamps fsA sB "/d" (by decide)).2.1 dM ⟨none, none, []⟩
      (by decide) (by decide)).1⟩

/-- C9: a path whose leaf name is empty after splitting (a normalized root
path) makes throwing file resolution raise file-expected for every store —
hence before any backing query — so `remove`, read-mode `openbin` (under an
existing parent marker) and `setinfo` raise file-expected rather than
not-found; the non-throwing resolution is not short-circuited and uses the
result of the query issued with the empty file name. -/
theorem empty_leaf_file_expected (fs : OmeroFS) (s : OmeroStore) (p : String)
    (info : SetInfoArg) (hclean : CleanPath p)
    (hb : (splitBasename p).2 = "") :
    getFileT s fs.ns p = .error (.fileExpected p) ∧
    OmeroFS.remove fs s p = (.error (.fileExpected p), s) ∧
    OmeroFS.setinfo fs s p info = (.error (.fileExpected p), s) ∧
    (∀ pm, dirMatches s fs.ns (normalizePath (splitBasename p).1) = [pm] →
      OmeroFS.openbin fs s p "rb" = (.error (.fileExpected p), s)) ∧
    (∀ i, fileMatchIds s fs.ns (splitBasename p).1 "" = [i] →
      getFileRaw s fs.ns p = .ok (lookupFile s i)) := by
  have h1 : getFileT s fs.ns p = .error (.fileExpected p) := by
    simp [getFileT, hb]
  have ht : strContains "rb" 't' = false := by decide
  have hsb : stripB "rb" = "r" := by decide
  have hr : strContains "r" 'r' = true := by decide
  refine ⟨h1, ?_, ?_, fun pm hpm => ?_, fun i hi => ?_⟩
  · simp [OmeroFS.remove, h1]
  · simp [OmeroFS.setinfo, h1]
  · simp [OmeroFS.openbin, ht, hsb, hr, getDirRaw, hpm, h1]
  · simp [getFileRaw, hb, hi]

/-- Witness for C9 at the root path on the fixture store. -/
theorem empty_leaf_file_expected_witness :
    getFileT sB "ns" "/" = .error (.fileExpected "/") ∧
    OmeroFS.openbin fsA sB "/" "rb" = (.error (.fileExpected "/"), sB) :=
  ⟨(empty_leaf_file_expected fsA sB "/" ⟨none, none, []⟩ (by decide)
      (by decide)).1,
   (empty_leaf_file_expected fsA sB "/" ⟨none, none, []⟩ (by decide)
      (by decide)).2.2.2.1 rootM (by decide)⟩

/-- C10: `setinfo` treats `None` and `0` timestamps as not provided, leaving
the stored timestamps — and every other field — unchanged, yet still issues
one save of the file object; truthy timestamps change exactly the two
timestamp fields. -/
theorem setinfo_falsy_frame (fs : OmeroFS) (s : OmeroStore) (p : String)
    (f : FileEntry) (hclean : CleanPath p)
    (hf : getFileT s fs.ns p = .ok (some f))
    (huniq : ∀ g ∈ s.files, g.id = f.id → g = f) :
    (∀ o, OmeroFS.setinfo fs s p ⟨none, none, o⟩ =
      (.ok (), { s with saves := s.saves + 1 })) ∧
    (∀ o, OmeroFS.setinfo fs s p ⟨some 0, some 0, o⟩ =
      (.ok (), { s with saves := s.saves + 1 })) ∧
    (∀ m c o, OmeroFS.setinfo fs s p ⟨some m, some c, o⟩ =
      (.ok (), saveFile s
        { f with
          mtime := if m = 0 then f.mtime else m * 1000,
          ctime := if c = 0 then f.ctime else some (c * 1000) })) := by
  have hmap : s.files.map (fun g => if g.id = f.id then f else g) = s.files := by
    simpa using map_replace_self s.files f huniq
  refine ⟨fun o => ?_, fun o => ?_, fun m c o => ?_⟩
  · simp [OmeroFS.setinfo, hf, pyTruthy, saveFile, hmap]
  · simp [OmeroFS.setinfo, hf, pyTruthy, saveFile, hmap]
  · by_cases hm : m = 0 <;> by_cases hc : c = 0 <;>
      simp [OmeroFS.setinfo, hf, pyTruthy, hm, hc]

/-- Witness for C10 on the fixture store: zero/absent timestamps leave the
file table unchanged while still saving once. -/
theorem setinfo_falsy_frame_witness :
    OmeroFS.setinfo fsA sB "/f" ⟨none, none, []⟩ =
      (.ok (), { sB with saves := 1 }) ∧
    OmeroFS.setinfo fsA sB "/f" ⟨some 0, some 0, []⟩ =
      (.ok (), { sB with saves := 1 }) :=
  ⟨(setinfo_falsy_frame fsA sB "/f" fE (by decide) (by decide) (by decide)).1 [],
   (setinfo_falsy_frame fsA sB "/f" fE (by decide) (by decide)
      (by decide)).2.1 []⟩

/-- Writing at the current end of the content appends. -/
theorem writeAt_at_end (c buf : List Nat) :
    writeAt c c.length buf = c ++ buf := by
  simp [writeAt]

/-- C2: truncating a writable handle to a size strictly above the current
remote size appends exactly the missing zero bytes, leaves every previously
stored byte unchanged, and returns the handle with its offset (and every
other field) as before. -/
theorem truncate_grow (s : OmeroStore) (h : OriginalFileObj) (f : FileEntry)
    (size : Nat) (hw : h.writable = true)
    (hf : lookupFile s h.fileId = some f)
    (hgt : f.content.length < size) :
    OriginalFileObj.truncate h s (some size) =
      .ok (size,
        updateContent s h.fileId
          (f.content ++ List.replicate (size - f.content.length) 0), h) ∧
    (f.content ++ List.replicate (size - f.content.length) 0).length = size ∧
    (f.content ++ List.replicate (size - f.content.length) 0).take
      f.content.length = f.content := by
  refine ⟨?_, ?_, ?_⟩
  · simp only [OriginalFileObj.truncate, hw, hf, hgt, OriginalFileObj.write,
      writeAt_at_end]
    simp [hgt, hw]
    rw [← hw]
  · simp [Nat.add_sub_cancel' (le_of_lt hgt)]
  · exact List.take_left f.content _

/-- Witness for C2: growing `/f` (2 bytes) to 5 bytes pads three zeros and
keeps the handle offset at 1. -/
theorem truncate_grow_witness :
    OriginalFileObj.truncate
      { fileId := 2, pos := 1, bufsize := 2621440,
        readable := true, writable := true } sB (some 5) =
      .ok (5, updateContent sB 2 [104, 105, 0, 0, 0],
        { fileId := 2, pos := 1, bufsize := 2621440,
          readable := true, writable := true }) :=
  (truncate_grow sB
    { fileId := 2, pos := 1, bufsize := 2621440,
      readable := true, writable := true } fE 5 (by decide) (by decide)
    (by decide)).1

/-- A found file's id is the id it was looked up by. -/
theorem lookupFile_eq_id (s : OmeroStore) (i : Nat) (f : FileEntry)
    (h : lookupFile s i = some f) : f.id = i := by
  have := List.find?_some h
  simpa using this

/-- Auxiliary: `find?` commutes with a map that preserves the id. -/
theorem find?_map_preserve (g : FileEntry → FileEntry)
    (hg : ∀ f, (g f).id = f.id) (l : List FileEntry) (i : Nat) :
    (l.map g).find? (fun f => f.id == i) =
      (l.find? (fun f => f.id == i)).map g := by
  induction l with
  | nil => rfl
  | cons a t ih =>
    simp only [List.map_cons]
    cases h : (a.id == i) with
    | true => simp [List.find?, hg a, h]
    | false => simp [List.find?, hg a, h, ih]

/-- Auxiliary: `find?` over an appended list. -/
theorem find?_append_own {α : Type} (l1 l2 : List α) (p : α → Bool) :
    (l1 ++ l2).find? p =
      (match l1.find? p with
       | some x => some x
       | none => l2.find? p) := by
  induction l1 with
  | nil => rfl
  | cons a t ih =>
    cases h : p a with
    | true => simp [List.find?, h]
    | false => simp [List.find?, h, ih]

/-- Auxiliary: pointwise-equal functions give equal `filterMap`s. -/
theorem filterMap_congr_own {α β : Type} (l : List α) (f g : α → Option β)
    (h : ∀ a ∈ l, f a = g a) : l.filterMap f = l.filterMap g := by
  induction l with
  | nil => rfl
  | cons a t ih =>
    rw [List.filterMap_cons, List.filterMap_cons, h a (by simp),
      ih (fun x hx => h x (by simp [hx]))]

/-- Content updates, which model remote ranged writes and truncates, change
neither a file's id nor its name, so lookups change only the content field. -/
theorem lookupFile_updateContent (s : OmeroStore) (fid : Nat) (c : List Nat)
    (i : Nat) :
    lookupFile (updateContent s fid c) i =
      (lookupFile s i).map
        (fun f => if f.id == fid then { f with content := c } else f) := by
  simp only [lookupFile, updateContent]
  exact find?_map_preserve _
    (fun f => by cases h : (f.id == fid) <;> simp [h]) s.files i

/-- Content updates do not change the projection rows: the query matches on
names, links and markers only. -/
theorem fileMatchIds_updateContent (s : OmeroStore) (fid : Nat) (c : List Nat)
    (ns dn bn : String) :
    fileMatchIds (updateContent s fid c) ns dn bn =
      fileMatchIds s ns dn bn := by
  simp only [fileMatchIds]
  have hlinks : (updateContent s fid c).fileLinks = s.fileLinks := rfl
  rw [hlinks]
  refine filterMap_congr_own _ _ _ (fun l hl => ?_)
  have hdir : lookupDir (updateContent s fid c) l.2 = lookupDir s l.2 := rfl
  rw [hdir, lookupFile_updateContent]
  cases hf : lookupFile s l.1 with
  | none => rfl
  | some f =>
    cases hd : lookupDir s l.2 with
    | none => rfl
    | some m =>
      by_cases hid : f.id = fid <;> simp [hid]

/-- A marker resolved as the unique match carries the queried namespace and
text value. -/
theorem dirMatches_singleton_props (s : OmeroStore) (ns x : String)
    (pm : DirMarker) (h : dirMatches s ns x = [pm]) :
    pm.ns = ns ∧ pm.textValue = x := by
  have hm : pm ∈ dirMatches s ns x := by rw [h]; exact List.mem_singleton_self pm
  have hp := List.of_mem_filter hm
  simpa using hp

/-- Writing at offset zero into empty content stores exactly the buffer. -/
theorem writeAt_nil (b : List Nat) : writeAt [] 0 b = b := by
  simp [writeAt]

/-- A negative count reads the whole content from offset zero. -/
theorem readAllAt_neg_zero (c : List Nat) : readAllAt c 0 (-1) = c := by
  simp [readAllAt]

/-- The file object created by `openbin` is found under the fresh id. -/
theorem lookupFile_createFileEntry_new (s : OmeroStore) (name path : String)
    (pid : Nat) (hfresh : ∀ g ∈ s.files, g.id ≠ s.nextId) :
    lookupFile (createFileEntry s name path pid).2 s.nextId =
      some (createFileEntry s name path pid).1 := by
  have hfiles : (createFileEntry s name path pid).2.files =
      s.files ++ [(createFileEntry s name path pid).1] := rfl
  simp only [lookupFile, hfiles]
  rw [find?_append_own]
  have h1 : s.files.find? (fun f => f.id == s.nextId) = none := by
    rw [List.find?_eq_none]
    intro g hg
    simpa using hfresh g hg
  rw [h1]
  simp [List.find?, createFileEntry]

/-- Creation does not disturb lookups of previously existing ids. -/
theorem lookupFile_createFileEntry_old (s : OmeroStore) (name path : String)
    (pid i : Nat) (hne : i ≠ s.nextId) :
    lookupFile (createFileEntry s name path pid).2 i = lookupFile s i := by
  have hfiles : (createFileEntry s name path pid).2.files =
      s.files ++ [(createFileEntry s name path pid).1] := rfl
  simp only [lookupFile, hfiles]
  rw [find?_append_own]
  cases h : s.files.find? (fun f => f.id == i) with
  | some f => simp
  | none =>
    have hb : (s.nextId == i) = false := by simpa using Ne.symm hne
    simp [List.find?, createFileEntry, hb]

/-- Creating a file entry adds exactly one projection row, and only when the
new entry's name and the parent marker's coordinates match the query. -/
theorem fileMatchIds_createFileEntry (s : OmeroStore) (name path : String)
    (pid : Nat) (pm : DirMarker) (ns dn bn : String)
    (hfreshf : ∀ g ∈ s.files, g.id ≠ s.nextId)
    (hfreshl : ∀ l ∈ s.fileLinks, l.1 ≠ s.nextId)
    (hpm : lookupDir s pid = some pm) :
    fileMatchIds (createFileEntry s name path pid).2 ns dn bn =
      fileMatchIds s ns dn bn ++
        (if name == bn && pm.textValue == dn && pm.ns == ns then [s.nextId]
         else []) := by
  have hlinks : (createFileEntry s name path pid).2.fileLinks =
      s.fileLinks ++ [(s.nextId, pid)] := rfl
  have hdirs : ∀ j, lookupDir (createFileEntry s name path pid).2 j =
      lookupDir s j := fun j => rfl
  simp only [fileMatchIds]
  rw [hlinks, List.filterMap_append]
  congr 1
  · exact filterMap_congr_own _ _ _ (fun l hl => by
      rw [hdirs, lookupFile_createFileEntry_old s name path pid l.1
        (hfreshl l hl)])
  · have hnew := lookupFile_createFileEntry_new s name path pid hfreshf
    simp only [List.filterMap_cons, List.filterMap_nil]
    rw [hdirs, hnew, hpm]
    cases hcond : (name == bn && pm.textValue == dn && pm.ns == ns) with
    | true =>
      have h1 : (createFileEntry s name path pid).1.name = name := rfl
      have h2 : (createFileEntry s name path pid).1.id = s.nextId := rfl
      simp only [h1, h2, hcond]
      simp
    | false =>
      have h1 : (createFileEntry s name path pid).1.name = name := rfl
      simp only [h1, hcond]
      simp

/-- Opening in write mode under an existing unique parent marker, with no
marker occupying the path itself and at most one resolvable matching entry:
the call returns a write-only handle at offset zero over a (created or
truncated) empty backing file that is the unique projection match, leaving
the marker table unchanged. -/
theorem openbin_w_spec (fs : OmeroFS) (s : OmeroStore) (p : String)
    (pm : DirMarker)
    (hpm : dirMatches s fs.ns (normalizePath (splitBasename p).1) = [pm])
    (hpmtv : pm.textValue = (splitBasename p).1)
    (hpmid : lookupDir s pm.id = some pm)
    (hnodir : dirMatches s fs.ns (normalizePath p) = [])
    (hids : fileMatchIds s fs.ns (splitBasename p).1 (splitBasename p).2 = [] ∨
      ∃ f, fileMatchIds s fs.ns (splitBasename p).1 (splitBasename p).2
          = [f.id] ∧ lookupFile s f.id = some f)
    (hfreshf : ∀ g ∈ s.files, g.id ≠ s.nextId)
    (hfreshl : ∀ l ∈ s.fileLinks, l.1 ≠ s.nextId) :
    ∃ fid s2 ff,
      OmeroFS.openbin fs s p "wb" =
        (.ok { fileId := fid, pos := 0, bufsize := DEFAULT_BUFSIZE,
               readable := false, writable := true }, s2) ∧
      s2.dirs = s.dirs ∧
      fileMatchIds s2 fs.ns (splitBasename p).1 (splitBasename p).2 = [fid] ∧
      lookupFile s2 fid = some ff ∧ ff.content = [] ∧ ff.id = fid := by
  have ht : strContains "wb" 't' = false := by decide
  have hsb : stripB "wb" = "w" := by decide
  have hmr : strContains "w" 'r' = false := by decide
  have hma : strContains "w" 'a' = false := by decide
  have hmw : strContains "w" 'w' = true := by decide
  have hmx : strContains "w" 'x' = false := by decide
  have hmp : strContains "w" '+' = false := by decide
  obtain ⟨hpmns, _⟩ := dirMatches_singleton_props s fs.ns _ pm hpm
  cases hids with
  | inl hempty =>
    set nf := (createFileEntry s (splitBasename p).2 (splitBasename p).1
      pm.id).1 with hnf
    set sN := (createFileEntry s (splitBasename p).2 (splitBasename p).1
      pm.id).2 with hsN
    have hnfid : nf.id = s.nextId := rfl
    have hnfcont : nf.content = [] := rfl
    have hnew : lookupFile sN s.nextId = some nf :=
      lookupFile_createFileEntry_new s _ _ pm.id hfreshf
    refine ⟨s.nextId, updateContent sN s.nextId [], nf, ?_, rfl, ?_, ?_,
      hnfcont, hnfid⟩
    · simp only [OmeroFS.openbin, ht, hsb, hmr, hma, hmw, hmx, hmp,
        getDirRaw, hpm, hnodir, getFileRaw, hempty,
        OriginalFileObj.truncate, OriginalFileObj.seek,
        OriginalFileObj.write]
      rw [← hnf, ← hsN]
      simp only [hnfid, hnew, hnfcont]
      simp [lookupFile_updateContent, hnew, hnfid]
    · rw [fileMatchIds_updateContent,
        fileMatchIds_createFileEntry s _ _ pm.id pm _ _ _ hfreshf hfreshl
          hpmid, hempty]
      simp [hpmtv, hpmns]
    · rw [lookupFile_updateContent, hnew]
      simp [hnfid, hnfcont]
      rfl
  | inr hex =>
    obtain ⟨f, hid, hlf⟩ := hex
    have hfid : f.id = f.id := rfl
    refine ⟨f.id, updateContent s f.id [], { f with content := [] }, ?_,
      rfl, ?_, ?_, rfl, rfl⟩
    · simp only [OmeroFS.openbin, ht, hsb, hmr, hma, hmw, hmx, hmp,
        getDirRaw, hpm, getFileRaw, hid, hlf,
        OriginalFileObj.truncate, OriginalFileObj.seek,
        OriginalFileObj.write]
      simp [hlf, lookupFile_updateContent]
    · rw [fileMatchIds_updateContent, hid]
    · rw [lookupFile_updateContent, hlf]
      simp

/-- C1: for a file path whose unique parent marker exists (and is not
shadowed by a marker or duplicate entries at the path itself), opening for
write, writing `b`, closing, reopening for read and reading to end-of-file
returns exactly `b`. -/
theorem write_read_roundtrip (fs : OmeroFS) (s : OmeroStore) (p : String)
    (b : List Nat) (pm : DirMarker) (hclean : CleanPath p)
    (hb : (splitBasename p).2 ≠ "")
    (hpm : dirMatches s fs.ns (normalizePath (splitBasename p).1) = [pm])
    (hpmtv : pm.textValue = (splitBasename p).1)
    (hpmid : lookupDir s pm.id = some pm)
    (hnodir : dirMatches s fs.ns (normalizePath p) = [])
    (hids : fileMatchIds s fs.ns (splitBasename p).1 (splitBasename p).2 = [] ∨
      ∃ f, fileMatchIds s fs.ns (splitBasename p).1 (splitBasename p).2
          = [f.id] ∧ lookupFile s f.id = some f)
    (hfreshf : ∀ g ∈ s.files, g.id ≠ s.nextId)
    (hfreshl : ∀ l ∈ s.fileLinks, l.1 ≠ s.nextId) :
    writeReadRoundtrip fs s p b = .ok b := by
  obtain ⟨fid, s2, ff, heq, hdirs, hmatch, hlook, hcont, hfid⟩ :=
    openbin_w_spec fs s p pm hpm hpmtv hpmid hnodir hids hfreshf hfreshl
  have hwrite : OriginalFileObj.write
      { fileId := fid, pos := 0, bufsize := DEFAULT_BUFSIZE,
        readable := false, writable := true } s2 b =
      .ok (b.length, updateContent s2 fid b,
        { fileId := fid, pos := 0 + b.length, bufsize := DEFAULT_BUFSIZE,
          readable := false, writable := true }) := by
    simp only [OriginalFileObj.write]
    simp [hlook, hcont, writeAt_nil]
  have hdm : ∀ x, dirMatches (updateContent s2 fid b) fs.ns x =
      dirMatches s fs.ns x := by
    intro x
    simp only [dirMatches]
    rw [show (updateContent s2 fid b).dirs = s.dirs from hdirs]
  have hmatch3 : fileMatchIds (updateContent s2 fid b) fs.ns
      (splitBasename p).1 (splitBasename p).2 = [fid] := by
    rw [fileMatchIds_updateContent, hmatch]
  have hlook3 : lookupFile (updateContent s2 fid b) fid =
      some { ff with content := b } := by
    rw [lookupFile_updateContent, hlook]
    simp [hfid]
  have hrt : strContains "rb" 't' = false := by decide
  have hrsb : stripB "rb" = "r" := by decide
  have hrr : strContains "r" 'r' = true := by decide
  have hrp : strContains "r" '+' = false := by decide
  have hopen2 : OmeroFS.openbin fs (updateContent s2 fid b) p "rb" =
      (.ok { fileId := fid, pos := 0, bufsize := DEFAULT_BUFSIZE,
             readable := true, writable := false }, updateContent s2 fid b) := by
    simp only [OmeroFS.openbin, hrt, hrsb, hrr, hrp, getDirRaw, getFileT,
      hdm, hpm, hb, hmatch3, hlook3]
    simp [hfid]
  have hread : OriginalFileObj.read
      { fileId := fid, pos := 0, bufsize := DEFAULT_BUFSIZE,
        readable := true, writable := false } (updateContent s2 fid b) (-1) =
      .ok (b, { fileId := fid, pos := 0 + b.length,
                bufsize := DEFAULT_BUFSIZE, readable := true,
                writable := false }) := by
    simp only [OriginalFileObj.read]
    simp [hlook3, readAllAt_neg_zero]
  simp only [writeReadRoundtrip, heq, hwrite, hopen2, hread]

/-- Witness for C1 on the fixture store: writing three bytes to the fresh
path `/g` and reading them back. -/
theorem write_read_roundtrip_witness :
    writeReadRoundtrip fsA sB "/g" [1, 2, 3] = .ok [1, 2, 3] :=
  write_read_roundtrip fsA sB "/g" [1, 2, 3] rootM (by decide) (by decide)
    (by decide) (by decide) (by decide) (by decide) (.inl (by decide))
    (by decide) (by decide)

/-- A chunk in which `find` reports no newline contains none. -/
theorem findIdx10_none (l : List Nat) (h : findIdx10 l = none) : 10 ∉ l := by
  induction l with
  | nil => simp
  | cons b t ih =>
    simp only [findIdx10] at h
    by_cases hb : b = 10
    · simp [hb] at h
    · cases ht : findIdx10 t with
      | none =>
        simp only [List.mem_cons]
        rintro (rfl | hmem)
        · exact hb rfl
        · exact ih ht hmem
      | some j => rw [ht] at h; simp [hb] at h

/-- The reported newline index is in range, the prefix up to and including
it ends exactly with the newline byte, and nothing before it is one. -/
theorem findIdx10_some (l : List Nat) (i : Nat) (h : findIdx10 l = some i) :
    i < l.length ∧ l.take (i + 1) = l.take i ++ [10] ∧ 10 ∉ l.take i := by
  induction l generalizing i with
  | nil => simp [findIdx10] at h
  | cons b t ih =>
    simp only [findIdx10] at h
    by_cases hb : b = 10
    · rw [if_pos hb] at h
      have h0 : i = 0 := by simpa using h.symm
      subst h0
      exact ⟨by simp, by simp [hb], by simp⟩
    · rw [if_neg hb] at h
      cases ht : findIdx10 t with
      | none => rw [ht] at h; simp at h
      | some j =>
        rw [ht] at h
        have hji : j + 1 = i := by simpa using h
        obtain ⟨h1, h2, h3⟩ := ih j ht
        subst hji
        refine ⟨by simp; omega, ?_, ?_⟩
        · rw [List.take_succ_cons, List.take_succ_cons, h2]
          rfl
        · rw [List.take_succ_cons]
          simp only [List.mem_cons]
          rintro (rfl | hmem)
          · exact hb rfl
          · exact h3 hmem

/-- Invariant of the `readline` chunk loop on a readable handle with a
positive chunk size: the returned line extends the accumulator with the
slice of the content starting at the entry offset, the final offset sits
right after the returned line, no byte before the line's last is a newline,
and the loop stopped at a newline, at end-of-file, or at the size bound. -/
theorem readlineAux_spec (content : List Nat) (bufsize : Nat)
    (hb : 0 < bufsize) :
    ∀ fuel pos (size : Int) (acc : List Nat),
      content.length ≤ pos + fuel →
      ∃ δ : List Nat,
        readlineAux content bufsize true fuel pos size acc =
          .ok (acc ++ δ, pos + δ.length) ∧
        δ = (content.drop pos).take δ.length ∧
        10 ∉ δ.dropLast ∧
        (δ.getLast? = some 10 ∨ content.length ≤ pos + δ.length ∨
          (0 ≤ size ∧ size ≤ ((acc.length : Int) + (δ.length : Int)))) := by
  intro fuel
  induction fuel with
  | zero =>
    intro pos size acc hfuel
    exact ⟨[], by simp [readlineAux], by simp, by simp,
      Or.inr (Or.inl (by simpa using hfuel))⟩
  | succ fuel ih =>
    intro pos size acc hfuel
    by_cases hguard : pos < content.length ∧
        (size < 0 ∨ (acc.length : Int) < size)
    · have hbuflen : ((content.drop pos).take bufsize).length =
          min bufsize (content.length - pos) := by simp
      have hbufpos : 0 < ((content.drop pos).take bufsize).length := by
        rw [hbuflen]
        have := hguard.1
        omega
      have hbufle : pos + ((content.drop pos).take bufsize).length ≤
          content.length := by
        rw [hbuflen]; omega
      cases hfind : findIdx10 ((content.drop pos).take bufsize) with
      | none =>
        have hfuel' : content.length ≤
            (pos + ((content.drop pos).take bufsize).length) + fuel := by
          omega
        obtain ⟨δ', he, hs, hd, hstop⟩ :=
          ih (pos + ((content.drop pos).take bufsize).length) size
            (acc ++ (content.drop pos).take bufsize) hfuel'
        have hbufno : 10 ∉ (content.drop pos).take bufsize :=
          findIdx10_none _ hfind
        refine ⟨(content.drop pos).take bufsize ++ δ', ?_, ?_, ?_, ?_⟩
        · rw [show readlineAux content bufsize true (fuel + 1) pos size acc =
              readlineAux content bufsize true fuel
                (pos + ((content.drop pos).take bufsize).length) size
                (acc ++ (content.drop pos).take bufsize) from by
            simp [readlineAux, hguard, hfind]]
          rw [he]
          simp [Nat.add_assoc]
        · rw [List.length_append, List.take_add]
          congr 1
          · rw [List.take_eq_take]
            simp
          · conv_lhs => rw [hs]
            rw [List.drop_drop]
        · cases hδ' : δ' with
          | nil =>
            simp only [hδ', List.append_nil]
            intro hmem
            exact hbufno ((List.dropLast_sublist _).subset hmem)
          | cons x xs =>
            rw [List.dropLast_append_of_ne_nil _ (by simp [hδ'])]
            simp only [List.mem_append]
            rintro (hmem | hmem)
            · exact hbufno hmem
            · rw [← hδ'] at hmem
              exact hd hmem
        · rcases hstop with h10 | heof | hsz
          · left
            rw [List.getLast?_append, h10]
            rfl
          · right; left
            rw [List.length_append]
            omega
          · right; right
            refine ⟨hsz.1, ?_⟩
            have h2 := hsz.2
            simp only [List.length_append] at h2 ⊢
            push_cast at h2 ⊢
            omega
      | some eol =>
        obtain ⟨hlt, htake, hno⟩ := findIdx10_some _ eol hfind
        have hlelen : eol + 1 ≤ ((content.drop pos).take bufsize).length := hlt
        have hlen : (((content.drop pos).take bufsize).take (eol + 1)).length
            = eol + 1 := by simp; omega
        refine ⟨((content.drop pos).take bufsize).take (eol + 1), ?_, ?_, ?_,
          ?_⟩
        · rw [show readlineAux content bufsize true (fuel + 1) pos size acc =
              .ok (acc ++ ((content.drop pos).take bufsize).take (eol + 1),
                (pos + ((content.drop pos).take bufsize).length) -
                  (((content.drop pos).take bufsize).length - eol - 1)) from by
            simp [readlineAux, hguard, hfind]]
          have harith : (pos + ((content.drop pos).take bufsize).length) -
              (((content.drop pos).take bufsize).length - eol - 1) =
              pos + (eol + 1) := by omega
          rw [harith, hlen]
        · rw [hlen, List.take_take]
          congr 1
          have : eol + 1 ≤ bufsize := by
            rw [hbuflen] at hlelen
            omega
          omega
        · rw [htake, List.dropLast_concat]
          exact hno
        · left
          rw [htake, List.getLast?_concat]
    · refine ⟨[], by simp [readlineAux, hguard], by simp, by simp, ?_⟩
      by_cases hpos : pos < content.length
      · right; right
        have hd : ¬(size < 0 ∨ (acc.length : Int) < size) :=
          fun hor => hguard ⟨hpos, hor⟩
        push_neg at hd
        exact ⟨hd.1, by simpa using hd.2⟩
      · right; left
        omega

/-- C8: `readline` on a readable handle with a positive chunk size reads
buffered chunks from the handle offset; the returned line is exactly the
content slice starting at the offset, the offset lands immediately after the
line (just past the newline, discarding chunk bytes read beyond it), no byte
before the line's last is a newline, and reading stopped at a newline, at
end-of-file, or — only for a non-negative `size` — at the size bound, so a
negative size is unbounded. -/
theorem readline_spec (s : OmeroStore) (h : OriginalFileObj) (f : FileEntry)
    (size : Int) (hf : lookupFile s h.fileId = some f)
    (hr : h.readable = true) (hbuf : 0 < h.bufsize) :
    ∃ line : List Nat,
      OriginalFileObj.readline h s size =
        .ok (line, { h with pos := h.pos + line.length }) ∧
      line = (f.content.drop h.pos).take line.length ∧
      10 ∉ line.dropLast ∧
      (line.getLast? = some 10 ∨ f.content.length ≤ h.pos + line.length ∨
        (0 ≤ size ∧ size ≤ (line.length : Int))) := by
  obtain ⟨δ, he, hs, hd, hstop⟩ := readlineAux_spec f.content h.bufsize hbuf
    (f.content.length + 1) h.pos size [] (by omega)
  refine ⟨δ, ?_, hs, hd, ?_⟩
  · rw [show OriginalFileObj.readline h s size =
        (match readlineAux f.content h.bufsize h.readable
            (f.content.length + 1) h.pos size [] with
         | .error e => .error e
         | .ok (line, pos1) => .ok (line, { h with pos := pos1 }))
        from by simp [OriginalFileObj.readline, hf]]
    rw [hr, he]
    simp
  · rcases hstop with h10 | heof | hsz
    · exact Or.inl h10
    · exact Or.inr (Or.inl heof)
    · exact Or.inr (Or.inr ⟨hsz.1, by simpa using hsz.2⟩)

/-- Witness for C8: an unbounded readline over content `ab\nc` with chunk
size two returns `ab\n` and rewinds to just past the newline. -/
theorem readline_spec_witness :
    ∃ line : List Nat,
      OriginalFileObj.readline
        { fileId := 2, pos := 0, bufsize := 2, readable := true,
          writable := false }
        { sB with files := [{ fE with content := [97, 98, 10, 99] }] }
        (-1) =
        .ok (line,
          { fileId := 2, pos := 0 + line.length, bufsize := 2,
            readable := true, writable := false }) ∧
      line = (([97, 98, 10, 99] : List Nat).drop 0).take line.length ∧
      10 ∉ line.dropLast ∧
      (line.getLast? = some 10 ∨
        ([97, 98, 10, 99] : List Nat).length ≤ 0 + line.length ∨
        (0 ≤ (-1 : Int) ∧ (-1 : Int) ≤ (line.length : Int))) :=
  readline_spec
    { sB with files := [{ fE with content := [97, 98, 10, 99] }] }
    { fileId := 2, pos := 0, bufsize := 2, readable := true,
      writable := false }
    { fE with content := [97, 98, 10, 99] } (-1) (by decide) (by decide)
    (by decide)
